import Mathlib

/-!
Verification development for the `pyallocopt` repository.

The repository has two source files:

* `allocopt/grt_utils.py` — a fixed-point decimal codec converting between
  integer GRT wei amounts and arbitrary-precision decimal values, working
  under a scoped `decimal.Context` with 78 significant digits of precision.
* `allocopt/allocopt.py` — orchestration glue that builds a configuration,
  runs an embedded Julia function `opt_fun` (constraint filtering, stake
  budget computation, an external `optimize` call, re-adding of pinned
  stake, a budget check with a NaN guard, and strategy selection), and
  converts the single returned strategy into a wei mapping.

The embedding below models Python `Decimal` values by their exact rational
value together with the context rounding that the `decimal` module applies:
every arithmetic operation is correctly rounded to the context precision
(number of significant decimal digits), and `quantize` rounds to a fixed
exponent, failing when the resulting coefficient exceeds the precision.
Julia `Float64` values appearing in `opt_fun` are modelled as exact
rationals extended with a NaN element (`FVal`), since the claims under
study concern control flow (NaN guards, comparisons) and not binary
floating-point rounding.
-/

namespace PyAllocOpt

/-! ## Decimal codec model (`allocopt/grt_utils.py`) -/

/-- Number of decimal digits of a natural number (`0` has no digits). -/
def numDigits (n : ℕ) : ℕ := (Nat.digits 10 n).length

/-- Rounding modes of the Python `decimal` module that the codec documents
(`ROUND_HALF_EVEN`, `ROUND_DOWN`, `ROUND_UP`, `ROUND_HALF_UP`,
`ROUND_FLOOR`, `ROUND_CEILING`). -/
inductive RoundingMode where
  | halfEven
  | roundDown
  | roundUp
  | halfUp
  | roundFloor
  | roundCeiling
deriving DecidableEq

/-- Round a rational to an integer with ties going to the even neighbour
(`ROUND_HALF_EVEN`). -/
def halfEvenInt (x : ℚ) : ℤ :=
  let f := ⌊x⌋
  let r := x - f
  if r < 1/2 then f
  else if 1/2 < r then f + 1
  else if f % 2 = 0 then f else f + 1

/-- Round a rational to an integer under a given `decimal` rounding mode. -/
def roundInt : RoundingMode → ℚ → ℤ
  | .halfEven, x => halfEvenInt x
  | .roundDown, x => if 0 ≤ x then ⌊x⌋ else ⌈x⌉
  | .roundUp, x => if 0 ≤ x then ⌈x⌉ else ⌊x⌋
  | .halfUp, x => if 0 ≤ x then ⌊x + 1/2⌋ else ⌈x - 1/2⌉
  | .roundFloor, x => ⌊x⌋
  | .roundCeiling, x => ⌈x⌉

/-- Adjusted exponent of a nonzero rational `q`: the integer `e` with
`10 ^ e ≤ |q| < 10 ^ (e + 1)` (the decade of the leading significant
digit, as in the decimal arithmetic specification). -/
def sigExp (q : ℚ) : ℤ :=
  if (10 : ℚ) ^ ((numDigits q.num.natAbs : ℤ) - (numDigits q.den : ℤ)) ≤ |q| then
    (numDigits q.num.natAbs : ℤ) - (numDigits q.den : ℤ)
  else
    (numDigits q.num.natAbs : ℤ) - (numDigits q.den : ℤ) - 1

/-- Correct rounding of a rational value to `p` significant decimal digits
under rounding mode `rm`: the semantics of every `decimal` arithmetic
operation at context precision `p`. -/
def roundPrec (p : ℕ) (rm : RoundingMode) (q : ℚ) : ℚ :=
  if q = 0 then 0
  else
    (roundInt rm (q / (10 : ℚ) ^ (sigExp q - p + 1))) * (10 : ℚ) ^ (sigExp q - p + 1)

/-- A `decimal.Context`: precision in significant digits and default
rounding mode. -/
structure DecContext where
  prec : ℕ
  rounding : RoundingMode
deriving DecidableEq

/-- `_GRT_DECIMAL_CONTEXT = Context(prec=78)`; the unspecified rounding is
copied from the default context, `ROUND_HALF_EVEN`. -/
def GRT_DECIMAL_CONTEXT : DecContext := ⟨78, .halfEven⟩

/-- `_GRT_DECIMALS = Decimal(18)`. -/
def GRT_DECIMALS : ℕ := 18

/-- `_GRT_DECIMAL_FACTOR = Decimal(10) ** _GRT_DECIMALS`, exactly `10^18`. -/
def GRT_DECIMAL_FACTOR : ℚ := 10 ^ GRT_DECIMALS

/-- The `_grt_decimal_context` context manager: save the ambient context,
run the body under `GRT_DECIMAL_CONTEXT`, and restore the ambient context
afterwards (the `try`/`finally` restores it on every exit path, so the
final context is the ambient one regardless of the body's outcome). -/
def withGrtDecimalContext (ambient : DecContext) (body : DecContext → α) :
    α × DecContext :=
  (body GRT_DECIMAL_CONTEXT, ambient)

/-- Division `Decimal(grt_wei) / _GRT_DECIMAL_FACTOR` under context `ctx`:
the exact quotient correctly rounded to `ctx.prec` significant digits with
the context rounding. -/
def grt_wei_to_decimal_core (ctx : DecContext) (grt_wei : ℤ) : ℚ :=
  roundPrec ctx.prec ctx.rounding ((grt_wei : ℚ) / GRT_DECIMAL_FACTOR)

/-- `grt_wei_to_decimal`: runs the division inside the scoped GRT decimal
context, returning the value together with the decimal context left in
place afterwards. -/
def grt_wei_to_decimal (grt_wei : ℤ) (ambient : DecContext) : ℚ × DecContext :=
  withGrtDecimalContext ambient (fun ctx => grt_wei_to_decimal_core ctx grt_wei)

/-- Truncation toward zero, the behaviour of Python `int()` on a Decimal. -/
def truncQ (q : ℚ) : ℤ := if 0 ≤ q then ⌊q⌋ else ⌈q⌉

/-- Body of `grt_decimal_to_wei` under context `ctx`:
`int(Decimal(grt_decimal).quantize(1 / _GRT_DECIMAL_FACTOR, rounding=rounding) * _GRT_DECIMAL_FACTOR)`.
`quantize` rounds the value to a multiple of `10^-18` using the requested
rounding mode (the context rounding when `rounding` is `None`); its result
has coefficient `m` at exponent `-18`, and `quantize` raises
`InvalidOperation` (modelled as `none`) when that coefficient needs more
than `ctx.prec` digits. The subsequent multiplication by the factor is an
ordinary context-rounded decimal multiplication, and `int` truncates. -/
def grt_decimal_to_wei_core (ctx : DecContext) (grt_decimal : ℚ)
    (rounding : Option RoundingMode) : Option ℤ :=
  let rm := rounding.getD ctx.rounding
  let m : ℤ := roundInt rm (grt_decimal * GRT_DECIMAL_FACTOR)
  if numDigits m.natAbs ≤ ctx.prec then
    some (truncQ (roundPrec ctx.prec ctx.rounding
      (((m : ℚ) / GRT_DECIMAL_FACTOR) * GRT_DECIMAL_FACTOR)))
  else none

/-- `grt_decimal_to_wei`: runs the quantize-and-scale conversion inside the
scoped GRT decimal context; the ambient decimal context is restored on the
normal path and on the `InvalidOperation` (`none`) path alike. -/
def grt_decimal_to_wei (grt_decimal : ℚ) (rounding : Option RoundingMode)
    (ambient : DecContext) : Option ℤ × DecContext :=
  withGrtDecimalContext ambient
    (fun ctx => grt_decimal_to_wei_core ctx grt_decimal rounding)

/-! ### Basic facts about the rounding model -/

theorem numDigits_lt_iff {n k : ℕ} : n < 10 ^ k ↔ numDigits n ≤ k := by
  rcases eq_or_ne n 0 with rfl | hn
  · have h1 : (0 : ℕ) < 10 ^ k := Nat.pos_pow_of_pos k (by norm_num)
    have h2 : numDigits 0 = 0 := by simp [numDigits]
    constructor <;> intro <;> simp [h1, h2]
  · unfold numDigits
    rw [Nat.digits_len 10 n (by norm_num) hn,
      Nat.lt_pow_iff_log_lt (by norm_num) hn]
    omega

theorem base_pow_pred_le {n : ℕ} (hn : n ≠ 0) : 10 ^ (numDigits n - 1) ≤ n := by
  unfold numDigits
  rw [Nat.digits_len 10 n (by norm_num) hn]
  simpa using Nat.pow_log_le_self 10 hn

theorem lt_base_pow_numDigits (n : ℕ) : n < 10 ^ numDigits n :=
  numDigits_lt_iff.mpr le_rfl

theorem halfEvenInt_intCast (z : ℤ) : halfEvenInt (z : ℚ) = z := by
  unfold halfEvenInt
  rw [Int.floor_intCast]
  norm_num

theorem roundInt_intCast (rm : RoundingMode) (z : ℤ) : roundInt rm (z : ℚ) = z := by
  have hfl : ⌊((z : ℚ) + 1/2)⌋ = z := by
    rw [show ((z : ℚ) + 1/2) = (1/2 : ℚ) + (z : ℤ) by ring,
      Int.floor_add_int]
    norm_num
  have hcl : ⌈((z : ℚ) - 1/2)⌉ = z := by
    rw [show ((z : ℚ) - 1/2) = (-(1/2) : ℚ) + (z : ℤ) by ring,
      Int.ceil_add_int]
    norm_num
  cases rm with
  | halfEven => exact halfEvenInt_intCast z
  | roundDown => simp only [roundInt]; split <;> simp
  | roundUp => simp only [roundInt]; split <;> simp
  | halfUp =>
    simp only [roundInt]; split
    · exact hfl
    · exact hcl
  | roundFloor => exact Int.floor_intCast z
  | roundCeiling => exact Int.ceil_intCast z

/-- The adjusted exponent is a lower bound: for positive `q`,
`10 ^ sigExp q ≤ q`. -/
theorem sigExp_le {q : ℚ} (hq : 0 < q) : (10 : ℚ) ^ sigExp q ≤ q := by
  have hnum : 0 < q.num := Rat.num_pos.mpr hq
  have hnn : ((q.num.natAbs : ℤ)) = q.num := Int.natAbs_of_nonneg hnum.le
  have hn0 : q.num.natAbs ≠ 0 := Int.natAbs_ne_zero.mpr hnum.ne'
  have hd0 : q.den ≠ 0 := q.den_nz
  unfold sigExp
  split
  · next h => rwa [abs_of_pos hq] at h
  · next h =>
    have hcast : ((q.num.natAbs : ℚ)) = (q.num : ℚ) := by
      rw [Int.cast_natAbs, abs_of_nonneg hnum.le]
    have hden : (0 : ℚ) < q.den := by exact_mod_cast q.pos
    have hmul : q * (q.den : ℚ) = (q.num : ℚ) := by
      calc q * (q.den : ℚ) = ((q.num : ℚ) / q.den) * q.den := by
            rw [Rat.num_div_den q]
        _ = (q.num : ℚ) := div_mul_cancel₀ _ hden.ne'
    have hdn : 1 ≤ numDigits q.num.natAbs := by
      have : Nat.digits 10 q.num.natAbs ≠ [] :=
        Nat.digits_ne_nil_iff_ne_zero.mpr hn0
      exact List.length_pos.mpr this
    have h1 : ((10 : ℚ)) ^ (numDigits q.num.natAbs - 1) ≤ (q.num.natAbs : ℚ) := by
      exact_mod_cast base_pow_pred_le hn0
    have h2 : ((q.den : ℚ)) < 10 ^ numDigits q.den := by
      exact_mod_cast lt_base_pow_numDigits q.den
    have hexp : (numDigits q.num.natAbs : ℤ) - (numDigits q.den : ℤ) - 1 =
        ((numDigits q.num.natAbs - 1 : ℕ) : ℤ) + (-(numDigits q.den : ℤ)) := by
      omega
    have key : (10 : ℚ) ^ (numDigits q.num.natAbs - 1) * q.den ≤
        (q.num.natAbs : ℚ) * 10 ^ numDigits q.den :=
      mul_le_mul h1 h2.le (by positivity) (by positivity)
    rw [hexp, zpow_add₀ (by norm_num : (10 : ℚ) ≠ 0), zpow_natCast, zpow_neg,
      zpow_natCast, ← div_eq_mul_inv, div_le_iff₀ (by positivity)]
    have key2 : (10 : ℚ) ^ (numDigits q.num.natAbs - 1) * q.den ≤
        (q * 10 ^ numDigits q.den) * q.den := by
      calc (10 : ℚ) ^ (numDigits q.num.natAbs - 1) * q.den
          ≤ (q.num.natAbs : ℚ) * 10 ^ numDigits q.den := key
        _ = (q * 10 ^ numDigits q.den) * q.den := by
            linear_combination (10 : ℚ) ^ numDigits q.den * hcast -
              (10 : ℚ) ^ numDigits q.den * hmul
    exact le_of_mul_le_mul_right key2 hden

/-- Exactness of context rounding: a value of the form `a / 10 ^ s` with
`a < 10 ^ 78` is representable in 78 significant digits, so rounding it to
precision 78 returns it unchanged (whatever the rounding mode). -/
theorem roundPrec_exact (rm : RoundingMode) (a s : ℕ) (ha : a < 10 ^ 78) :
    roundPrec 78 rm ((a : ℚ) / 10 ^ s) = (a : ℚ) / 10 ^ s := by
  rcases Nat.eq_zero_or_pos a with rfl | hapos
  · simp [roundPrec]
  have h10 : (10 : ℚ) ≠ 0 := by norm_num
  have hapos' : (0 : ℚ) < a := by exact_mod_cast hapos
  have hqpos : 0 < (a : ℚ) / 10 ^ s := by positivity
  have hqne : (a : ℚ) / 10 ^ s ≠ 0 := ne_of_gt hqpos
  have hle : (10 : ℚ) ^ sigExp ((a : ℚ) / 10 ^ s) ≤ (a : ℚ) / 10 ^ s :=
    sigExp_le hqpos
  have hpow : ((a : ℚ) / 10 ^ s) < (10 : ℚ) ^ (((78 : ℕ) : ℤ) - (s : ℤ)) := by
    have h1 : (a : ℚ) < 10 ^ (78 : ℕ) := by exact_mod_cast ha
    have h2 : (0 : ℚ) < 10 ^ s := by positivity
    rw [zpow_sub₀ h10, zpow_natCast, zpow_natCast]
    exact (div_lt_div_iff_of_pos_right h2).mpr h1
  have he2 : sigExp ((a : ℚ) / 10 ^ s) ≤ 77 - (s : ℤ) := by
    have hlt : (10 : ℚ) ^ sigExp ((a : ℚ) / 10 ^ s) <
        (10 : ℚ) ^ (((78 : ℕ) : ℤ) - (s : ℤ)) :=
      lt_of_le_of_lt hle hpow
    rw [zpow_lt_zpow_iff_right₀ (by norm_num : (1 : ℚ) < 10)] at hlt
    omega
  unfold roundPrec
  rw [if_neg hqne]
  set e := sigExp ((a : ℚ) / 10 ^ s) with hedef
  set u : ℕ := (77 - (s : ℤ) - e).toNat with hudef
  have hu : (u : ℤ) = 77 - (s : ℤ) - e := Int.toNat_of_nonneg (by omega)
  have hsplit : ∀ m : ℤ, (a : ℚ) / 10 ^ s / (10 : ℚ) ^ m =
      (a : ℚ) * (10 : ℚ) ^ (-(s : ℤ) - m) := by
    intro m
    rw [div_div, ← zpow_natCast (10 : ℚ) s, ← zpow_add₀ h10, div_eq_mul_inv,
      ← zpow_neg]
    have : -((s : ℤ) + m) = -(s : ℤ) - m := by ring
    rw [← this]
  rw [hsplit]
  have hexp_eq : -(s : ℤ) - (e - ((78 : ℕ) : ℤ) + 1) = (u : ℤ) := by
    omega
  rw [hexp_eq, zpow_natCast]
  have hcast2 : ((a : ℚ) * 10 ^ u) = (((a * 10 ^ u : ℕ) : ℤ) : ℚ) := by
    push_cast
    ring
  rw [hcast2, roundInt_intCast]
  rw [eq_div_iff (by positivity : (0 : ℚ) < 10 ^ s).ne']
  push_cast
  rw [← zpow_natCast (10 : ℚ) u, ← zpow_natCast (10 : ℚ) s, mul_assoc, mul_assoc,
    ← zpow_add₀ h10, ← zpow_add₀ h10]
  have hz2 : (u : ℤ) + (e - (78 : ℤ) + 1 + (s : ℤ)) = 0 := by
    omega
  rw [hz2, zpow_zero, mul_one]

/-- Exactness of `grt_wei_to_decimal`: for wei amounts below `10 ^ 78` the
division by `10 ^ 18` at 78 significant digits is exact. -/
theorem grt_wei_to_decimal_exact (w : ℕ) (hw : w < 10 ^ 78) (amb : DecContext) :
    (grt_wei_to_decimal (w : ℤ) amb).1 = (w : ℚ) / 10 ^ 18 := by
  have hc : (((w : ℤ) : ℚ)) = (w : ℚ) := by push_cast; ring
  simp only [grt_wei_to_decimal, withGrtDecimalContext, grt_wei_to_decimal_core,
    GRT_DECIMAL_CONTEXT, GRT_DECIMAL_FACTOR, GRT_DECIMALS, hc]
  exact roundPrec_exact .halfEven w 18 hw

/-- Round trip through the codec is the identity on wei amounts below
`10 ^ 78` (in particular on the whole 256-bit range). -/
theorem grt_roundtrip (w : ℕ) (hw : w < 10 ^ 78) (amb1 amb2 : DecContext) :
    (grt_decimal_to_wei ((grt_wei_to_decimal (w : ℤ) amb1).1) none amb2).1 =
      some (w : ℤ) := by
  rw [grt_wei_to_decimal_exact w hw amb1]
  have hF : ((10 : ℚ) ^ 18) ≠ 0 := by positivity
  have hmulF : ((w : ℚ) / 10 ^ 18) * 10 ^ 18 = ((w : ℤ) : ℚ) := by
    rw [div_mul_cancel₀ _ hF]
    push_cast
    ring
  simp only [grt_decimal_to_wei, withGrtDecimalContext, grt_decimal_to_wei_core,
    GRT_DECIMAL_CONTEXT, GRT_DECIMAL_FACTOR, GRT_DECIMALS, Option.getD]
  rw [hmulF, roundInt_intCast]
  have hdig : numDigits (w : ℤ).natAbs ≤ 78 := by
    rw [Int.natAbs_ofNat]
    exact numDigits_lt_iff.mp hw
  rw [if_pos hdig]
  have hinner : (((w : ℤ) : ℚ) / 10 ^ 18) * 10 ^ 18 = (w : ℚ) / 10 ^ 0 := by
    rw [div_mul_cancel₀ _ hF]
    push_cast
    norm_num
  rw [hinner, roundPrec_exact .halfEven w 0 hw]
  have : ((w : ℚ) / 10 ^ 0) = ((w : ℤ) : ℚ) := by push_cast; norm_num
  rw [this]
  have htr : truncQ (((w : ℤ) : ℚ)) = (w : ℤ) := by
    unfold truncQ
    rw [if_pos (by positivity), Int.floor_intCast]
  rw [htr]

/-- C1: for every non-negative integer wei amount `w` up to `2 ^ 256 - 1`,
converting `w` to a decimal with `grt_wei_to_decimal` and then back with
`grt_decimal_to_wei` (with the default rounding) returns exactly `w`. -/
theorem C1_grt_roundtrip_identity (w : ℕ) (amb1 amb2 : DecContext)
    (h : w ≤ 2 ^ 256 - 1) :
    (grt_decimal_to_wei ((grt_wei_to_decimal (w : ℤ) amb1).1) none amb2).1 =
      some (w : ℤ) := by
  apply grt_roundtrip
  have hbig : (2 : ℕ) ^ 256 - 1 < 10 ^ 78 := by norm_num
  omega

theorem C1_grt_roundtrip_identity_witness :
    (7 : ℕ) ≤ 2 ^ 256 - 1 ∧
    (grt_decimal_to_wei ((grt_wei_to_decimal ((7 : ℕ) : ℤ) ⟨28, .halfEven⟩).1)
      none ⟨28, .halfEven⟩).1 = some ((7 : ℕ) : ℤ) :=
  ⟨by norm_num,
    C1_grt_roundtrip_identity 7 ⟨28, .halfEven⟩ ⟨28, .halfEven⟩ (by norm_num)⟩

/-- C4: `grt_wei_to_decimal` represents every integer wei value in the
256-bit range without loss: for any `w ≤ 2 ^ 256 - 1` it returns exactly
the rational value `w / 10 ^ 18`, with no overflow or truncation. -/
theorem C4_wei_to_decimal_lossless (w : ℕ) (amb : DecContext)
    (h : w ≤ 2 ^ 256 - 1) :
    (grt_wei_to_decimal (w : ℤ) amb).1 = (w : ℚ) / 10 ^ 18 := by
  apply grt_wei_to_decimal_exact
  have hbig : (2 : ℕ) ^ 256 - 1 < 10 ^ 78 := by norm_num
  omega

theorem C4_wei_to_decimal_lossless_witness :
    (115792089237316195423570985008687907853269984665640564039457584007913129639935 : ℕ) ≤
        2 ^ 256 - 1 ∧
    (grt_wei_to_decimal
        ((115792089237316195423570985008687907853269984665640564039457584007913129639935 : ℕ) : ℤ)
        ⟨28, .halfEven⟩).1 =
      ((115792089237316195423570985008687907853269984665640564039457584007913129639935 : ℕ) : ℚ) /
        10 ^ 18 :=
  ⟨by norm_num,
    C4_wei_to_decimal_lossless
      115792089237316195423570985008687907853269984665640564039457584007913129639935
      ⟨28, .halfEven⟩ (by norm_num)⟩

/-- C7: both codec operations run under the scoped GRT decimal context of
78 (hence at least 78) significant digits, and on every exit path — the
normal return and the `InvalidOperation` (`none`) result alike — the
previously active ambient decimal context is restored unchanged. -/
theorem C7_codec_scoped_context :
    78 ≤ GRT_DECIMAL_CONTEXT.prec ∧
    (∀ (w : ℤ) (amb : DecContext),
      grt_wei_to_decimal w amb =
        (grt_wei_to_decimal_core GRT_DECIMAL_CONTEXT w, amb)) ∧
    (∀ (d : ℚ) (r : Option RoundingMode) (amb : DecContext),
      grt_decimal_to_wei d r amb =
        (grt_decimal_to_wei_core GRT_DECIMAL_CONTEXT d r, amb)) :=
  ⟨le_refl 78, fun _ _ => rfl, fun _ _ _ => rfl⟩

/-- C8: called without an explicit rounding mode, `grt_decimal_to_wei`
uses the scoped context's default rounding, which is round-half-even; and
for a fixed rounding mode the conversion is a pure function of its input —
in particular its value does not depend on the ambient context. -/
theorem C8_default_rounding_half_even :
    GRT_DECIMAL_CONTEXT.rounding = RoundingMode.halfEven ∧
    (∀ (d : ℚ) (amb : DecContext),
      grt_decimal_to_wei d none amb =
        grt_decimal_to_wei d (some RoundingMode.halfEven) amb) ∧
    (∀ (d : ℚ) (r : Option RoundingMode) (amb amb' : DecContext),
      (grt_decimal_to_wei d r amb).1 = (grt_decimal_to_wei d r amb').1) :=
  ⟨rfl, fun _ _ => rfl, fun _ _ _ _ => rfl⟩

/-! ## Orchestration model (`allocopt/allocopt.py`, embedded Julia `opt_fun`)

The Julia scalar values flowing through `opt_fun` are `Float64`; claims
about this code concern its control flow (the stake assertion, the NaN
guard in the budget check, re-adding pinned stake), so values are modelled
as exact rationals extended with a NaN element. The external collaborators
from `AllocationOpt.jl` (`read`, `allocatablesubgraphs`, `pinned`,
`availablestake`, `frozen`, `stake`, `signal`, `newtokenissuance`,
`optimize`, and the reporting helpers) are not part of this repository;
their outputs are inputs of the model, and the reporting helpers are
modelled from the spec where the claims need their shape. -/

/-- A Julia `Float64` value as used in `opt_fun`: an exact rational or NaN. -/
inductive FVal where
  | nan
  | val (q : ℚ)
deriving DecidableEq

/-- Addition with NaN propagation (`x .+ y` on Julia floats). -/
def fadd : FVal → FVal → FVal
  | .val a, .val b => .val (a + b)
  | _, _ => .nan

/-- Julia `sum` over one column of the allocation matrix (NaN propagates). -/
def colSum (col : List FVal) : FVal := col.foldl fadd (.val 0)

/-- Configuration fields of `opt_fun`'s `config` dictionary that the model
needs: `max_allocations`, `num_reported_options` and `gas`. -/
structure OptConfig where
  maxAllocations : ℕ
  numReportedOptions : ℕ
  gas : ℚ
deriving DecidableEq

/-- Outputs of the external data layer consumed by `opt_fun`: indexer
stake, frozen stake, the filtered subgraph table `fs` (ids, stakes,
signals), network signal, projected issuance and the pinned vector
`pinned(fs, config)`. -/
structure NetworkData where
  availStake : ℚ
  frozenStake : ℚ
  subgraphIds : List String
  subgraphStake : List ℚ
  subgraphSignal : List ℚ
  networkSignal : ℚ
  issuance : ℚ
  pinnedvec : List ℚ
deriving DecidableEq

/-- The numeric payload `opt_fun` passes to `optimize`:
`(Ω, ψ, σ, K, Φ, Ψ, g, rixs)`. -/
structure SolverRequest where
  bigOmega : List ℚ
  psi : List ℚ
  sigma : ℚ
  K : ℕ
  bigPhi : ℚ
  bigPsi : ℚ
  g : ℚ
  rixs : List ℕ
deriving DecidableEq

/-- What `optimize` returns: the allocation matrix `xs` (one column per
candidate scenario), the per-column nonzero counts, and the profit matrix
(one column per scenario). -/
structure SolverResponse where
  xs : List (List FVal)
  nonzeros : List ℕ
  profitmatrix : List (List ℚ)
deriving DecidableEq

/-- Error taxonomy of the orchestration layer, in the spec's names:
`InsufficientStakeError` is the failed Julia stake assertion,
`BudgetExceededError` the `error(...)` in the budget loop (carrying the
overflow `x - σmax`), `MalformedResponseError` the failed Python assertion
on the strategy count, and `ConversionError` a failed final wei
conversion. -/
inductive AllocOptError where
  | insufficientStake
  | budgetExceeded (overflow : ℚ)
  | malformedResponse
  | conversionError
deriving DecidableEq

/-- Modelled from the spec: `deniedzeroixs(fs)` — the indices of eligible
subgraphs that can earn indexing rewards, i.e. those with nonzero signal
(the source comment reads "Get indices of subgraphs that can get indexing
rewards"). The function lives in the external `AllocationOpt.jl`. -/
def deniedzeroixs (signals : List ℚ) : List ℕ :=
  (List.range signals.length).filter (fun i => signals.getD i 0 ≠ 0)

/-- The Solver Request exactly as `opt_fun` builds it:
`Ω = stake .+ fudgefactor`, `ψ`, the remaining stake `σ`,
`K = min(config["max_allocations"], length(rixs))`, `Φ`, `Ψ`, the gas
cost, and `rixs = deniedzeroixs(fs)`. -/
def buildSolverRequest (cfg : OptConfig) (data : NetworkData) (fudgefactor : ℚ)
    (sigma : ℚ) : SolverRequest :=
  { bigOmega := data.subgraphStake.map (· + fudgefactor)
    psi := data.subgraphSignal
    sigma := sigma
    K := min cfg.maxAllocations (deniedzeroixs data.subgraphSignal).length
    bigPhi := data.issuance
    bigPsi := data.networkSignal
    g := cfg.gas
    rixs := deniedzeroixs data.subgraphSignal }

/-- `xs .= xs .+ pinnedvec`: broadcast-add the pinned stake vector to every
column of the allocation matrix. -/
def readdPinned (xs : List (List FVal)) (pinnedvec : List ℚ) : List (List FVal) :=
  xs.map (fun col => List.zipWith (fun x q => fadd x (.val q)) col pinnedvec)

/-- Julia comparison `x ≤ m` on `Float64`: every comparison involving NaN
is false. -/
def fleB (x : FVal) (m : ℚ) : Bool :=
  match x with
  | .nan => false
  | .val q => decide (q ≤ m)

/-- The budget loop
`for x in sum(xs; dims=1): isnan(x) || x ≤ σmax || error(...)`:
walk the per-column sums; a non-NaN sum above `σmax` aborts with
`BudgetExceededError (x - σmax)`; NaN sums are skipped. -/
def checkBudget : List FVal → ℚ → Except AllocOptError Unit
  | [], _ => .ok ()
  | .nan :: rest, σmax => checkBudget rest σmax
  | .val q :: rest, σmax =>
    if q ≤ σmax then checkBudget rest σmax
    else .error (.budgetExceeded (q - σmax))

/-- A strategy report: nonzero-allocation count, profit, and the
allocation list (deployment id, amount). -/
structure Strategy where
  nonzeroCount : ℕ
  profit : ℚ
  allocations : List (String × FVal)
deriving DecidableEq

/-- Modelled from the spec: `groupunique(nonzeros)` of the external
`AllocationOpt.jl` — group the scenario indices by their nonzero count,
one group per distinct count. -/
def groupunique (l : List ℕ) : List (List ℕ) :=
  l.dedup.map (fun v => (List.range l.length).filter (fun i => l.getD i 0 = v))

/-- Profit of one scenario column of the profit matrix. -/
def colProfit (pm : List (List ℚ)) (c : ℕ) : ℚ := (pm.getD c []).sum

/-- Modelled from the spec: `bestprofitpernz` of the external
`AllocationOpt.jl` — within one group of scenario indices, pick the
highest-profit column, returning (profit, column index). -/
def bestprofitpernz (pm : List (List ℚ)) : List ℕ → ℚ × ℕ
  | [] => (0, 0)
  | c :: rest =>
    rest.foldl
      (fun best c2 =>
        if best.1 < colProfit pm c2 then (colProfit pm c2, c2) else best)
      (colProfit pm c, c)

/-- Insert into a profit-descending list. -/
def insertByProfit (x : ℚ × ℕ) : List (ℚ × ℕ) → List (ℚ × ℕ)
  | [] => [x]
  | y :: ys => if y.1 ≤ x.1 then x :: y :: ys else y :: insertByProfit x ys

/-- Modelled from the spec: `sortprofits!` of the external
`AllocationOpt.jl` — sort the (profit, index) pairs by profit,
descending. -/
def sortprofits (l : List (ℚ × ℕ)) : List (ℚ × ℕ) :=
  l.foldr insertByProfit []

/-- Modelled from the spec: `strategydict` of the external
`AllocationOpt.jl` — build one strategy report from a selected (profit,
column) pair: its nonzero count, its profit, and the nonzero allocations
of that column of the (pinned-readded) matrix, keyed by deployment id. -/
def strategydict (p : ℚ × ℕ) (xs : List (List FVal)) (nonzeros : List ℕ)
    (ids : List String) : Strategy :=
  { nonzeroCount := nonzeros.getD p.2 0
    profit := p.1
    allocations :=
      (ids.zip (xs.getD p.2 [])).filter (fun e => e.2 ≠ FVal.val 0) }

/-- The reporting tail of `opt_fun`: group scenarios by nonzero count,
take the best profit per group, sort descending, keep the first
`min(config["num_reported_options"], length(popts))` and render them. -/
def mkStrategies (cfg : OptConfig) (data : NetworkData) (resp : SolverResponse)
    (xs : List (List FVal)) : List Strategy :=
  let popts := sortprofits ((groupunique resp.nonzeros).map (bestprofitpernz resp.profitmatrix))
  (popts.take (min cfg.numReportedOptions popts.length)).map
    (fun p => strategydict p xs resp.nonzeros data.subgraphIds)

/-- The part of `opt_fun` after the `optimize` call: re-add the pinned
stake (`xs .= xs .+ pinnedvec`), run the budget loop against
`σmax = σ + σpinned`, and on success render the selected strategies. -/
def optFunRest (cfg : OptConfig) (data : NetworkData) (resp : SolverResponse) :
    Except AllocOptError (List Strategy) :=
  match checkBudget ((readdPinned resp.xs data.pinnedvec).map colSum)
      ((data.availStake - data.frozenStake - data.pinnedvec.sum) +
        data.pinnedvec.sum) with
  | .error e => .error e
  | .ok _ =>
    .ok (mkStrategies cfg data resp (readdPinned resp.xs data.pinnedvec))

/-- The embedded Julia `opt_fun`: compute `σpinned` and
`σ = availablestake - frozen - σpinned`, assert `σ > 0`
(`InsufficientStakeError` otherwise, before `optimize` is consulted),
invoke the external `optimize` on the built Solver Request, and hand its
response to the budget check and reporting tail. -/
def opt_fun (cfg : OptConfig) (data : NetworkData) (fudgefactor : ℚ)
    (optimize : SolverRequest → SolverResponse) :
    Except AllocOptError (List Strategy) :=
  if 0 < data.availStake - data.frozenStake - data.pinnedvec.sum then
    optFunRest cfg data (optimize (buildSolverRequest cfg data fudgefactor
      (data.availStake - data.frozenStake - data.pinnedvec.sum)))
  else .error .insufficientStake

/-- The Python default decimal context (`prec=28`, `ROUND_HALF_EVEN`),
ambient when `allocopt` converts amounts. -/
def defaultPyContext : DecContext := ⟨28, .halfEven⟩

/-- Final wei conversion of one reported amount:
`grt_decimal_to_wei(e["allocationAmount"])` — a NaN amount or a quantize
overflow raises (`ConversionError`). -/
def fvalToWei : FVal → Except AllocOptError ℤ
  | .nan => .error .conversionError
  | .val q =>
    match (grt_decimal_to_wei q none defaultPyContext).1 with
    | some z => .ok z
    | none => .error .conversionError

/-- The Python post-processing after `res = jl.opt_fun(config)`:
`assert len(res) == 1` (`MalformedResponseError` otherwise), then the
mapping `{e["deploymentID"]: grt_decimal_to_wei(e["allocationAmount"])}`. -/
def allocopt_post (strategies : List Strategy) :
    Except AllocOptError (List (String × ℤ)) :=
  match strategies with
  | [s] => s.allocations.mapM (fun e => (fvalToWei e.2).map (fun z => (e.1, z)))
  | _ => .error .malformedResponse

/-- The public entry point `allocopt`: the config fixes
`num_reported_options = 1`; run `opt_fun` and post-process its result. -/
def allocopt (maxNewAllocations : ℕ) (gas : ℚ) (data : NetworkData)
    (fudgefactor : ℚ) (optimize : SolverRequest → SolverResponse) :
    Except AllocOptError (List (String × ℤ)) :=
  (opt_fun ⟨maxNewAllocations, 1, gas⟩ data fudgefactor optimize).bind
    allocopt_post

/-! ## Claims about the orchestration -/

/-- C3: if the sum of pinned plus frozen stake consumes the entire
available indexer stake (remaining budget `σ ≤ 0`), the call fails with an
`InsufficientStakeError`; the failure does not depend on the optimizer,
which is never invoked on that path. -/
theorem C3_insufficient_stake_pre_solve (cfg : OptConfig) (data : NetworkData)
    (fudgefactor : ℚ) (optimize : SolverRequest → SolverResponse)
    (h : data.availStake - data.frozenStake - data.pinnedvec.sum ≤ 0) :
    opt_fun cfg data fudgefactor optimize = .error .insufficientStake := by
  unfold opt_fun
  rw [if_neg (not_lt.mpr h)]

theorem C3_insufficient_stake_pre_solve_witness :
    ((10 : ℚ) - 5 - [(5 : ℚ)].sum ≤ 0) ∧
    opt_fun ⟨1, 1, 0⟩ ⟨10, 5, ["Qm"], [1], [1], 1, 1, [5]⟩ 0
      (fun _ => ⟨[], [], []⟩) = .error .insufficientStake :=
  ⟨by norm_num,
    C3_insufficient_stake_pre_solve ⟨1, 1, 0⟩ ⟨10, 5, ["Qm"], [1], [1], 1, 1, [5]⟩
      0 (fun _ => ⟨[], [], []⟩) (by norm_num)⟩

/-- C6: the cardinality cap in the Solver Request equals
`min(config["max_allocations"], length(rixs))`, with `rixs` the index set
of eligible targets with nonzero reward potential; and `opt_fun` consults
the optimizer only through this built request. -/
theorem C6_cardinality_cap (cfg : OptConfig) (data : NetworkData)
    (fudgefactor sigma : ℚ) (f : SolverRequest → SolverResponse) :
    (buildSolverRequest cfg data fudgefactor sigma).K =
      min cfg.maxAllocations (deniedzeroixs data.subgraphSignal).length ∧
    opt_fun cfg data fudgefactor f =
      (if 0 < data.availStake - data.frozenStake - data.pinnedvec.sum then
        optFunRest cfg data (f (buildSolverRequest cfg data fudgefactor
          (data.availStake - data.frozenStake - data.pinnedvec.sum)))
      else .error .insufficientStake) :=
  ⟨rfl, rfl⟩

/-- C10: the budget loop passes a scenario exactly when its column sum is
NaN or a real number within the cap: the comparison against the stake
ceiling is only performed on non-NaN sums, so a NaN sum is bypassed and
validation passes with no budget error. -/
theorem C10_nan_bypasses_budget_check (sums : List FVal) (σmax : ℚ) :
    checkBudget sums σmax = .ok () ↔
      ∀ x ∈ sums, x = FVal.nan ∨ ∃ q, x = FVal.val q ∧ q ≤ σmax := by
  induction sums with
  | nil => simp [checkBudget]
  | cons x rest ih =>
    cases x with
    | nan =>
      simp only [checkBudget, List.mem_cons]
      rw [ih]
      constructor
      · rintro h x (rfl | hx)
        · exact Or.inl rfl
        · exact h x hx
      · intro h x hx
        exact h x (Or.inr hx)
    | val q =>
      by_cases hq : q ≤ σmax
      · simp only [checkBudget, if_pos hq, List.mem_cons]
        rw [ih]
        constructor
        · rintro h x (rfl | hx)
          · exact Or.inr ⟨q, rfl, hq⟩
          · exact h x hx
        · intro h x hx
          exact h x (Or.inr hx)
      · simp only [checkBudget, if_neg hq]
        constructor
        · intro h
          exact absurd h (by simp)
        · intro h
          rcases h (FVal.val q) (List.mem_cons_self _ _) with h1 | ⟨q2, hq2, hle⟩
          · exact absurd h1 (by simp)
          · rw [FVal.val.injEq] at hq2
            exact absurd (hq2 ▸ hle) hq

/-- C9: when `opt_fun` returns a number of strategies different from the
single one requested (`num_reported_options = 1`) — in particular more
than one — the public entry point fails with `MalformedResponseError`
instead of returning an allocation mapping. -/
theorem C9_malformed_response (maxNewAllocations : ℕ) (gas : ℚ)
    (data : NetworkData) (fudgefactor : ℚ)
    (optimize : SolverRequest → SolverResponse) (strategies : List Strategy)
    (h : opt_fun ⟨maxNewAllocations, 1, gas⟩ data fudgefactor optimize =
      .ok strategies)
    (hn : strategies.length ≠ 1) :
    allocopt maxNewAllocations gas data fudgefactor optimize =
      .error .malformedResponse := by
  unfold allocopt
  rw [h]
  show allocopt_post strategies = .error .malformedResponse
  match strategies, hn with
  | [], _ => rfl
  | [a], hn => exact absurd rfl hn
  | a :: b :: rest, _ => rfl

theorem C9_malformed_response_witness :
    opt_fun ⟨1, 1, 0⟩ ⟨10, 0, ["Qm"], [0], [1], 1, 1, [0]⟩ 0
      (fun _ => ⟨[], [], []⟩) = .ok [] ∧
    (([] : List Strategy).length ≠ 1) ∧
    allocopt 1 0 ⟨10, 0, ["Qm"], [0], [1], 1, 1, [0]⟩ 0
      (fun _ => ⟨[], [], []⟩) = .error .malformedResponse :=
  have h1 : opt_fun ⟨1, 1, 0⟩ ⟨10, 0, ["Qm"], [0], [1], 1, 1, [0]⟩ 0
      (fun _ => ⟨[], [], []⟩) = .ok [] := by
    norm_num [opt_fun, optFunRest, buildSolverRequest, readdPinned, checkBudget,
      mkStrategies, groupunique, sortprofits, bestprofitpernz, colProfit,
      strategydict, colSum, fadd, deniedzeroixs, List.range_succ]
  ⟨h1, by decide,
    C9_malformed_response 1 0 ⟨10, 0, ["Qm"], [0], [1], 1, 1, [0]⟩ 0
      (fun _ => ⟨[], [], []⟩) [] h1 (by decide)⟩

/-- If some non-NaN column sum exceeds the cap, the budget loop aborts
with the first such overflow. -/
theorem checkBudget_error_of_violation (sums : List FVal) (σmax : ℚ)
    (h : ∃ q, FVal.val q ∈ sums ∧ σmax < q) :
    ∃ q0, FVal.val q0 ∈ sums ∧ σmax < q0 ∧
      checkBudget sums σmax = .error (.budgetExceeded (q0 - σmax)) := by
  induction sums with
  | nil =>
    rcases h with ⟨q, hq, _⟩
    simp at hq
  | cons x rest ih =>
    rcases h with ⟨q, hq, hv⟩
    cases x with
    | nan =>
      have hq' : FVal.val q ∈ rest := by
        rcases List.mem_cons.mp hq with h1 | h1
        · exact absurd h1 (by simp)
        · exact h1
      obtain ⟨q0, h0, hv0, herr⟩ := ih ⟨q, hq', hv⟩
      exact ⟨q0, List.mem_cons_of_mem _ h0, hv0,
        by simpa only [checkBudget] using herr⟩
    | val a =>
      by_cases ha : a ≤ σmax
      · have hq' : FVal.val q ∈ rest := by
          rcases List.mem_cons.mp hq with h1 | h1
          · rw [FVal.val.injEq] at h1
            exact absurd (h1 ▸ hv) (not_lt.mpr ha)
          · exact h1
        obtain ⟨q0, h0, hv0, herr⟩ := ih ⟨q, hq', hv⟩
        refine ⟨q0, List.mem_cons_of_mem _ h0, hv0, ?_⟩
        simpa only [checkBudget, if_pos ha] using herr
      · refine ⟨a, List.mem_cons_self _ _, not_le.mp ha, ?_⟩
        simp only [checkBudget, if_neg ha]

/-- C2 (counterexample): a concrete run whose single returned scenario has
a NaN total: the call succeeds, the total is NaN, and NaN is not at most
the stake cap under the code's comparison, so the claimed verification
does not cover this returned scenario. -/
theorem C2_nan_scenario_counterexample :
    opt_fun ⟨1, 1, 0⟩ ⟨10, 0, ["Qm1"], [0], [1], 1, 1, [1]⟩ 0
        (fun _ => ⟨[[FVal.nan]], [1], [[0]]⟩) =
      .ok [⟨1, 0, [("Qm1", FVal.nan)]⟩] ∧
    (readdPinned [[FVal.nan]] [(1 : ℚ)]).map colSum = [FVal.nan] ∧
    fleB FVal.nan ((10 : ℚ) - 0 - [(1 : ℚ)].sum + [(1 : ℚ)].sum) = false := by
  refine ⟨?_, ?_, rfl⟩
  · norm_num [opt_fun, optFunRest, buildSolverRequest, readdPinned, checkBudget,
      mkStrategies, groupunique, sortprofits, bestprofitpernz, colProfit,
      strategydict, colSum, fadd, deniedzeroixs, List.range_succ, insertByProfit]
    decide
  · norm_num [readdPinned, colSum, fadd]

/-- C2 (amended): after pinned amounts are re-added, a returned scenario
whose total allocated stake is a real number above available-plus-pinned
stake makes `opt_fun` fail with `BudgetExceededError` carrying the
overflow amount of the first violating scenario; the whole plan is
rejected (no mapping is produced), never clipped. NaN totals are outside
the verification (see the NaN counterexample and C10). -/
theorem C2_budget_violation_rejected (cfg : OptConfig) (data : NetworkData)
    (fudgefactor : ℚ) (optimize : SolverRequest → SolverResponse)
    (sums : List FVal) (σmax : ℚ)
    (hσ : 0 < data.availStake - data.frozenStake - data.pinnedvec.sum)
    (hmax : σmax = data.availStake - data.frozenStake - data.pinnedvec.sum +
      data.pinnedvec.sum)
    (hsums : sums = (readdPinned (optimize (buildSolverRequest cfg data
      fudgefactor (data.availStake - data.frozenStake -
        data.pinnedvec.sum))).xs data.pinnedvec).map colSum)
    (hviol : ∃ q, FVal.val q ∈ sums ∧ σmax < q) :
    ∃ q0, FVal.val q0 ∈ sums ∧ σmax < q0 ∧
      opt_fun cfg data fudgefactor optimize =
        .error (.budgetExceeded (q0 - σmax)) := by
  obtain ⟨q0, h0, hv0, herr⟩ := checkBudget_error_of_violation sums σmax hviol
  refine ⟨q0, h0, hv0, ?_⟩
  unfold opt_fun
  rw [if_pos hσ]
  unfold optFunRest
  rw [← hsums, ← hmax, herr]

theorem C2_budget_violation_rejected_witness :
    ∃ q0, FVal.val q0 ∈ [FVal.val (100 : ℚ)] ∧ (10 : ℚ) < q0 ∧
      opt_fun ⟨1, 1, 0⟩ ⟨10, 0, ["Qm"], [0], [1], 1, 1, [0]⟩ 0
          (fun _ => ⟨[[FVal.val 100]], [1], [[0]]⟩) =
        .error (.budgetExceeded (q0 - 10)) :=
  C2_budget_violation_rejected ⟨1, 1, 0⟩ ⟨10, 0, ["Qm"], [0], [1], 1, 1, [0]⟩ 0
    (fun _ => ⟨[[FVal.val 100]], [1], [[0]]⟩) [FVal.val 100] 10
    (by norm_num)
    (by norm_num)
    (by norm_num [readdPinned, colSum, fadd, buildSolverRequest])
    ⟨100, by simp, by norm_num⟩

/-- C5 (counterexample): a pinned target with pre-optimization stake 50 to
which the optimizer allocates 1 more: the returned amount is 51, not the
pinned stake 50 — the code adds the pinned stake to the optimizer's
output instead of overwriting it. -/
theorem C5_pinned_unmodified_counterexample :
    opt_fun ⟨1, 1, 0⟩ ⟨100, 0, ["QmP"], [0], [1], 1, 1, [50]⟩ 0
        (fun _ => ⟨[[FVal.val 1]], [1], [[0]]⟩) =
      .ok [⟨1, 0, [("QmP", FVal.val 51)]⟩] ∧
    (⟨100, 0, ["QmP"], [0], [1], 1, 1, [50]⟩ : NetworkData).pinnedvec =
      [(50 : ℚ)] ∧
    FVal.val (51 : ℚ) ≠ FVal.val (50 : ℚ) := by
  refine ⟨?_, rfl, by simp⟩
  norm_num [opt_fun, optFunRest, buildSolverRequest, readdPinned, checkBudget,
    mkStrategies, groupunique, sortprofits, bestprofitpernz, colProfit,
    strategydict, colSum, fadd, deniedzeroixs, List.range_succ, insertByProfit]

/-- C5 (amended): every amount in every returned strategy is the
optimizer's output for that target plus the target's pinned stake entry
(`xs .= xs .+ pinnedvec`): a pinned target's returned amount equals its
pre-optimization stake exactly only when the optimizer allocated zero to
it. -/
theorem C5_pinned_stake_readded (cfg : OptConfig) (data : NetworkData)
    (fudgefactor : ℚ) (optimize : SolverRequest → SolverResponse)
    (strategies : List Strategy)
    (h : opt_fun cfg data fudgefactor optimize = .ok strategies) :
    ∀ s ∈ strategies, ∀ a ∈ s.allocations, ∃ c i,
      ∃ hc : c < (optimize (buildSolverRequest cfg data fudgefactor
        (data.availStake - data.frozenStake - data.pinnedvec.sum))).xs.length,
      ∃ hi : i < ((optimize (buildSolverRequest cfg data fudgefactor
        (data.availStake - data.frozenStake -
          data.pinnedvec.sum))).xs[c]).length,
      ∃ hp : i < data.pinnedvec.length,
      ∃ hid : i < data.subgraphIds.length,
      a.1 = data.subgraphIds[i] ∧
      a.2 = fadd (((optimize (buildSolverRequest cfg data fudgefactor
          (data.availStake - data.frozenStake -
            data.pinnedvec.sum))).xs[c])[i])
        (FVal.val (data.pinnedvec[i])) := by
  intro s hs a ha
  set resp := optimize (buildSolverRequest cfg data fudgefactor
    (data.availStake - data.frozenStake - data.pinnedvec.sum)) with hrespdef
  by_cases hσ : 0 < data.availStake - data.frozenStake - data.pinnedvec.sum
  · unfold opt_fun at h
    rw [if_pos hσ] at h
    unfold optFunRest at h
    rw [← hrespdef] at h
    cases hcb : checkBudget ((readdPinned resp.xs data.pinnedvec).map colSum)
        (data.availStake - data.frozenStake - data.pinnedvec.sum +
          data.pinnedvec.sum) with
    | error e =>
      rw [hcb] at h
      exact Except.noConfusion h
    | ok u =>
      rw [hcb] at h
      have hstr : mkStrategies cfg data resp
          (readdPinned resp.xs data.pinnedvec) = strategies := by
        injection h
      rw [← hstr] at hs
      unfold mkStrategies at hs
      obtain ⟨p, hpmem, hps⟩ := List.mem_map.mp hs
      rw [← hps] at ha
      unfold strategydict at ha
      simp only at ha
      have ha2 : a ∈ data.subgraphIds.zip
          ((readdPinned resp.xs data.pinnedvec).getD p.2 []) :=
        List.mem_of_mem_filter ha
      by_cases hc : p.2 < (readdPinned resp.xs data.pinnedvec).length
      · have hclen : p.2 < resp.xs.length := by
          simpa [readdPinned] using hc
        have hxs : (readdPinned resp.xs data.pinnedvec)[p.2] =
            List.zipWith (fun x q => fadd x (.val q)) (resp.xs[p.2])
              data.pinnedvec := by
          simp [readdPinned]
        rw [List.getD_eq_getElem _ _ hc, hxs] at ha2
        obtain ⟨j, hj, hj2⟩ := List.mem_iff_getElem.mp ha2
        have hjlen := hj
        rw [List.length_zip, List.length_zipWith] at hjlen
        have hid : j < data.subgraphIds.length := by omega
        have hi : j < (resp.xs[p.2]).length := by omega
        have hpin : j < data.pinnedvec.length := by omega
        rw [List.getElem_zip] at hj2
        refine ⟨p.2, j, hclen, hi, hpin, hid, ?_, ?_⟩
        · rw [← hj2]
        · rw [← hj2]
          simp [List.getElem_zipWith]
      · rw [List.getD_eq_default _ _ (not_lt.mp hc), List.zip_nil_right] at ha2
        exact absurd ha2 (List.not_mem_nil a)
  · unfold opt_fun at h
    rw [if_neg hσ] at h
    exact Except.noConfusion h

theorem C5_pinned_stake_readded_witness :
    ∃ c i,
      ∃ hc : c < ((fun _ : SolverRequest =>
        (⟨[[FVal.val 1]], [1], [[0]]⟩ : SolverResponse))
          (buildSolverRequest ⟨1, 1, 0⟩ ⟨100, 0, ["QmP"], [0], [1], 1, 1, [50]⟩
            0 (((⟨100, 0, ["QmP"], [0], [1], 1, 1, [50]⟩ : NetworkData)).availStake -
              ((⟨100, 0, ["QmP"], [0], [1], 1, 1, [50]⟩ : NetworkData)).frozenStake -
              ((⟨100, 0, ["QmP"], [0], [1], 1, 1, [50]⟩ : NetworkData)).pinnedvec.sum))).xs.length,
      ∃ hi : i < (((fun _ : SolverRequest =>
        (⟨[[FVal.val 1]], [1], [[0]]⟩ : SolverResponse))
          (buildSolverRequest ⟨1, 1, 0⟩ ⟨100, 0, ["QmP"], [0], [1], 1, 1, [50]⟩
            0 (((⟨100, 0, ["QmP"], [0], [1], 1, 1, [50]⟩ : NetworkData)).availStake -
              ((⟨100, 0, ["QmP"], [0], [1], 1, 1, [50]⟩ : NetworkData)).frozenStake -
              ((⟨100, 0, ["QmP"], [0], [1], 1, 1, [50]⟩ : NetworkData)).pinnedvec.sum))).xs[c]).length,
      ∃ hp : i < ((⟨100, 0, ["QmP"], [0], [1], 1, 1, [50]⟩ : NetworkData)).pinnedvec.length,
      ∃ hid : i < ((⟨100, 0, ["QmP"], [0], [1], 1, 1, [50]⟩ : NetworkData)).subgraphIds.length,
      (("QmP", FVal.val (51 : ℚ))).1 =
        ((⟨100, 0, ["QmP"], [0], [1], 1, 1, [50]⟩ : NetworkData)).subgraphIds[i] ∧
      (("QmP", FVal.val (51 : ℚ))).2 = fadd ((((fun _ : SolverRequest =>
        (⟨[[FVal.val 1]], [1], [[0]]⟩ : SolverResponse))
          (buildSolverRequest ⟨1, 1, 0⟩ ⟨100, 0, ["QmP"], [0], [1], 1, 1, [50]⟩
            0 (((⟨100, 0, ["QmP"], [0], [1], 1, 1, [50]⟩ : NetworkData)).availStake -
              ((⟨100, 0, ["QmP"], [0], [1], 1, 1, [50]⟩ : NetworkData)).frozenStake -
              ((⟨100, 0, ["QmP"], [0], [1], 1, 1, [50]⟩ : NetworkData)).pinnedvec.sum))).xs[c])[i])
        (FVal.val (((⟨100, 0, ["QmP"], [0], [1], 1, 1, [50]⟩ : NetworkData)).pinnedvec[i])) := by
  have hrun : opt_fun ⟨1, 1, 0⟩ ⟨100, 0, ["QmP"], [0], [1], 1, 1, [50]⟩ 0
      (fun _ => ⟨[[FVal.val 1]], [1], [[0]]⟩) =
      .ok [⟨1, 0, [("QmP", FVal.val 51)]⟩] := by
    norm_num [opt_fun, optFunRest, buildSolverRequest, readdPinned, checkBudget,
      mkStrategies, groupunique, sortprofits, bestprofitpernz, colProfit,
      strategydict, colSum, fadd, deniedzeroixs, List.range_succ, insertByProfit]
  exact C5_pinned_stake_readded ⟨1, 1, 0⟩ ⟨100, 0, ["QmP"], [0], [1], 1, 1, [50]⟩
    0 (fun _ => ⟨[[FVal.val 1]], [1], [[0]]⟩) [⟨1, 0, [("QmP", FVal.val 51)]⟩]
    hrun ⟨1, 0, [("QmP", FVal.val 51)]⟩ (by simp)
    ("QmP", FVal.val 51) (by simp)

end PyAllocOpt
